import Mathlib

/-!
Verification of the AI Processing API gateway (`src/main.py`).

The development shallowly embeds the content resolver, prompt builder,
provider request construction and streaming normalization logic of
`main.py` as executable Lean functions, and proves the testable
properties of the specification against them.

Network effects (HTTP fetches, backend calls) are modelled as explicit
oracle arguments, so that "no network call is made" becomes
"the result does not depend on the oracle".
-/

namespace AIProc

/-! ## Characters and whitespace

`isWs` embeds the character class `\s` of Python's `re` module
(restricted to its ASCII members, which is what the sanitization logic
of `fetch_web_content` relies on): space, tab, newline, carriage
return, vertical tab and form feed. -/

def isWs (c : Char) : Bool :=
  c == ' ' || c == '\t' || c == '\n' || c == '\r' || c == '\x0b' || c == '\x0c'

/-- True when the list starts with the character `>`. -/
def headIsGt : List Char → Bool
  | '>' :: _ => true
  | _ => false

/-- The characters strictly after the first `>` of `l` (meaningful when
`>` occurs in `l`): the tail of `dropWhile (· ≠ '>')`. -/
def gtSplitAfter (l : List Char) : List Char :=
  (l.dropWhile (fun x => !(x == '>'))).tail

/-- Case-insensitive test that `pat` (given in lower case) is a prefix of
`l`, embedding `re.IGNORECASE` matching of a fixed ASCII pattern. -/
def ciPrefOf (pat l : List Char) : Bool :=
  (l.take pat.length).map Char.toLower == pat

/-! ## `re.sub(r'<script[^>]*>.*?</script>', '', content, flags=re.DOTALL | re.IGNORECASE)`

`main.py` lines 511-512 strip `<script ...> ... </script>` and
`<style ...> ... </style>` blocks.  `stripBlock tag` performs the
left-to-right, non-overlapping, leftmost-match removal that `re.sub`
performs: at each position, the pattern matches iff the text starts
with `<` followed by the tag (case-insensitively), some `>` occurs
after the tag part (`[^>]*>` always ends at the first such `>`), and
the closing `</tag>` occurs (case-insensitively) after that `>`
(`.*?` is non-greedy, so the first occurrence closes the match). -/

/-- Does `l` begin with the closing pattern `</tag>` (tag lower case,
matched case-insensitively)? -/
def closeHere (tag l : List Char) : Bool :=
  match l with
  | '<' :: '/' :: r => ciPrefOf tag r && headIsGt (r.drop tag.length)
  | _ => false

/-- Index of the first occurrence of the closing pattern `</tag>` in `l`. -/
def closeIdx (tag : List Char) : List Char → Option Nat
  | [] => none
  | c :: rest =>
    if closeHere tag (c :: rest) then some 0
    else (closeIdx tag rest).map (· + 1)

def stripBlock (tag : List Char) : List Char → List Char
  | [] => []
  | c :: rest =>
    if c == '<' && ciPrefOf tag rest && (rest.drop tag.length).contains '>' then
      let afterGt := gtSplitAfter (rest.drop tag.length)
      match closeIdx tag afterGt with
      | some i => stripBlock tag (afterGt.drop (i + tag.length + 3))
      | none => c :: stripBlock tag rest
    else c :: stripBlock tag rest
termination_by l => l.length
decreasing_by
  · simp only [gtSplitAfter]
    have h1 := List.length_tail ((rest.drop tag.length).dropWhile (fun x => !(x == '>')))
    have h2 := (List.dropWhile_sublist (fun x => !(x == '>')) (l := rest.drop tag.length)).length_le
    have h3 := List.length_drop tag.length rest
    have h4 : (((rest.drop tag.length).dropWhile (fun x => !(x == '>'))).tail.drop (i + tag.length + 3)).length ≤ (((rest.drop tag.length).dropWhile (fun x => !(x == '>'))).tail).length := by
      simp only [List.length_drop, List.length_tail]; omega
    simp only [List.length_cons]
    omega
  · simp only [List.length_cons]; omega
  · simp only [List.length_cons]; omega

/-! ## `re.sub(r'<[^>]+>', '', content)`

`main.py` line 515 strips the remaining tags.  A match starts at a `<`
whose next `>` is at distance at least 2 (at least one non-`>`
character between), and always ends at that first `>`. -/

def stripTags : List Char → List Char
  | [] => []
  | c :: rest =>
    if c == '<' && !(headIsGt rest) && rest.contains '>' then
      stripTags (gtSplitAfter rest)
    else c :: stripTags rest
termination_by l => l.length
decreasing_by
  · simp only [gtSplitAfter]
    have h1 := List.length_tail (rest.dropWhile (fun x => !(x == '>')))
    have h2 := (List.dropWhile_sublist (fun x => !(x == '>')) (l := rest)).length_le
    simp only [List.length_cons]
    omega
  · simp only [List.length_cons]; omega

/-! ## `re.sub(r'\s+', ' ', content)` and `.strip()`

`main.py` lines 518-519: collapse every maximal whitespace run into a
single space and trim both ends. -/

def collapse : List Char → List Char
  | [] => []
  | c :: rest =>
    if isWs c then ' ' :: collapse (rest.dropWhile isWs)
    else c :: collapse rest
termination_by l => l.length
decreasing_by
  · have := (List.dropWhile_sublist isWs (l := rest)).length_le
    simp only [List.length_cons]
    omega
  · simp only [List.length_cons]; omega

def trimLeft (l : List Char) : List Char := l.dropWhile isWs

def trimR (l : List Char) : List Char := (l.reverse.dropWhile isWs).reverse

def trim (l : List Char) : List Char := trimR (trimLeft l)

/-- The whole sanitization pipeline of `fetch_web_content`
(`main.py` lines 509-519): strip script blocks, strip style blocks,
strip remaining tags, collapse whitespace, trim. -/
def sanitizeL (l : List Char) : List Char :=
  trim (collapse (stripTags (stripBlock ("style".toList) (stripBlock ("script".toList) l))))

def sanitizeStr (s : String) : String := ⟨sanitizeL s.data⟩

/-! ## Structural predicates used by the idempotence proof -/

/-- No tag-shaped fragment remains: every `<` is either immediately
followed by `>` or has no `>` anywhere after it.  On such text none of
the three `re.sub` patterns above can match. -/
def noTagB : List Char → Bool
  | [] => true
  | c :: rest =>
    (if c == '<' then (headIsGt rest || !(rest.contains '>')) else true) && noTagB rest

def wsOkChar (c : Char) : Bool := !(isWs c) || (c == ' ')

def noWsPair (c : Char) (l : List Char) : Bool :=
  match l with
  | d :: _ => !(isWs c && isWs d)
  | [] => true

/-- Whitespace-normal: every whitespace character is a plain space and
no two whitespace characters are adjacent. -/
def wsNormB : List Char → Bool
  | [] => true
  | c :: rest => wsOkChar c && noWsPair c rest && wsNormB rest

/-! ## URL parsing (`urllib.parse.urlparse`)

`fetch_web_content` (`main.py` lines 490-491) only inspects the
`scheme` and `netloc` components of `urlparse(url)`.  We embed the
scheme/netloc extraction of CPython's `urlsplit`: a scheme is split
off iff a `:` occurs at index `i > 0`, the first character is an ASCII
letter and every character before the `:` is a scheme character; a
netloc is present iff the remainder then starts with `//`, and extends
to the next `/`, `?` or `#`. -/

def isAsciiAlpha (c : Char) : Bool :=
  ('a' ≤ c && c ≤ 'z') || ('A' ≤ c && c ≤ 'Z')

def isSchemeChar (c : Char) : Bool :=
  isAsciiAlpha c || c.isDigit || c == '+' || c == '-' || c == '.'

/-- Split `url` into `(scheme, rest-after-colon)`; scheme is `[]` (and
the url is returned whole) when no valid scheme is present. -/
def splitScheme (url : List Char) : List Char × List Char :=
  let before := url.takeWhile (fun c => !(c == ':'))
  let rest := url.dropWhile (fun c => !(c == ':'))
  match rest with
  | ':' :: after =>
    if !before.isEmpty
        && (match url with | c :: _ => isAsciiAlpha c | [] => false)
        && before.all isSchemeChar
    then (before.map Char.toLower, after)
    else ([], url)
  | _ => ([], url)

/-- Netloc of the post-scheme remainder: present iff it starts with
`//`; ends at the next `/`, `?` or `#`. -/
def netlocOf (rest : List Char) : List Char :=
  match rest with
  | '/' :: '/' :: r => r.takeWhile (fun c => !(c == '/' || c == '?' || c == '#'))
  | _ => []

/-! ## Content resolver (`fetch_web_content`, `main.py` lines 486-530) -/

/-- Errors raised inside the endpoint handlers.  `http s d` stands for
a `fastapi.HTTPException` with status `s` and detail `d`; `exc m` for
any other exception with message `m`.  `toMessage` embeds Python's
`str(e)` (Starlette renders an `HTTPException` as
`"{status_code}: {detail}"`). -/
inductive ApiErr where
  | http (status : Nat) (detail : String)
  | exc (msg : String)
deriving DecidableEq

def ApiErr.toMessage : ApiErr → String
  | .http s d => toString s ++ ": " ++ d
  | .exc m => m

/-- Outcome of the raw `requests.get` transport, supplied as an oracle:
`success body` is a 2xx answer with decoded text `body`; `failure msg`
covers connection errors and the `raise_for_status` of a non-success
status (both surface as a `requests.exceptions.RequestException` whose
`str` is `msg`). -/
inductive FetchResult where
  | success (body : String)
  | failure (msg : String)
deriving DecidableEq

/-- Python string slicing `s[:n]` (counting code points). -/
def takeChars (n : Nat) (s : String) : String := ⟨s.data.take n⟩

/-- The fixed truncation marker appended by `fetch_web_content`. -/
def truncMarker : String := "... [Content truncated]"

/-- `main.py` lines 522-523: hard cap at 8000 characters plus marker. -/
def truncateContent (s : String) : String :=
  if s.length > 8000 then takeChars 8000 s ++ truncMarker else s

def startsWithStr (pre s : String) : Bool := s.data.take pre.data.length == pre.data

/-- Line 491: `if not parsed_url.scheme or not parsed_url.netloc`. -/
def urlValid (url : String) : Bool :=
  !((splitScheme url.data).1.isEmpty || (netlocOf (splitScheme url.data).2).isEmpty)

/-- Lines 495-496: `https://` is prepended when the url does not start
with `http://` or `https://` (note: this runs only after validation). -/
def prependedUrl (url : String) : String :=
  if startsWithStr "http://" url || startsWithStr "https://" url then url
  else "https://" ++ url

/-- `fetch_web_content(url)` with the HTTP transport as an oracle.
Validation happens FIRST (lines 490-492): a missing scheme or netloc
raises `ValueError("Invalid URL format")`, caught by the generic
handler of lines 529-530 into `HTTPException(400, "Error processing
URL: ...")`.  Only then (lines 495-496) is `https://` prepended. -/
def fetchWebContent (http : String → FetchResult) (url : String) : Except ApiErr String :=
  if !(urlValid url) then
    .error (.http 400 "Error processing URL: Invalid URL format")
  else
    match http (prependedUrl url) with
    | .failure msg => .error (.http 400 ("Failed to fetch URL: " ++ msg))
    | .success body => .ok (truncateContent (sanitizeStr body))

/-! ## Prompt builder (`build_prompt`, `main.py` lines 467-483) -/

/-- `build_prompt(text, source_type)`: the fixed f-string template with
its two substitutions. -/
def buildPrompt (text : String) (sourceType : String) : String :=
  let sourceInfo := if sourceType == "url" then "web page content" else "text"
  "\nPlease process the following " ++ sourceInfo
    ++ " and return a well-formatted JSON response:\n\n"
    ++ text
    ++ "\n\nRequirements:\n- Return valid JSON format\n- Include relevant information extracted or generated from the "
    ++ sourceInfo
    ++ "\n- Structure the response logically\n- If the "
    ++ sourceInfo
    ++ " contains questions, provide answers\n- If the "
    ++ sourceInfo
    ++ " contains data, organize it appropriately\n- If processing a web page, extract key information, summarize content, and identify main topics\n"

/-- Module-level mutable/configured state visible to the handlers of
`main.py` (the API key, the configured base URL, the wall clock).
`build_prompt` reads none of it; `buildPromptIn` makes that explicit
by taking the state as an argument the way every handler call
implicitly does. -/
structure GlobalState where
  openaiApiKey : Option String
  ollamaBaseUrl : String
  clock : Nat

/-- `build_prompt` as run inside a process with module state `σ`:
its body references only its two parameters. -/
def buildPromptIn (_σ : GlobalState) (text : String) (sourceType : String) : String :=
  buildPrompt text sourceType

/-! ## System prompt resolution and outbound provider requests -/

/-- `DEFAULT_SYSTEM_PROMPT` of `main.py` lines 59-80, verbatim. -/
def DEFAULT_SYSTEM_PROMPT : String :=
  "You are a JSON structuring engine.\n\nRULES:\n1. Take the input EXACTLY as provided by the user.\n2. Do NOT interpret, summarize, rewrite, or add any information.\n3. Preserve ALL words, spelling, punctuation, symbols, line breaks, and formatting EXACTLY as they appear.\n4. Do NOT infer product names, descriptions, or create extra data not explicitly present in the input.\n5. Output ONLY valid JSON. Do NOT include explanations or any text outside the JSON.\n6. If unsure, wrap the input exactly as-is into the \"raw_input\" field.\n\nYour output format must always be:\n\n\x7b\n  \"structured\": \x7b\n    // Create keys ONLY for clearly identifiable sections or labels in the input.\n    // Use the exact wording from the input for the values.\n    // If no structure is identifiable, leave this object empty.\n  \x7d\n\x7d\n\n- Do NOT rephrase or interpret values when filling fields.\n- If there are no fields to extract, leave \"structured\" as an empty object."

/-- `system_content = system_prompt if system_prompt else DEFAULT_SYSTEM_PROMPT`
(identical in `call_openai` line 408, `call_ollama` line 431,
`stream_ollama_response` line 541, `stream_openai_response` line 599).
Python truthiness: `None` and `""` both select the default. -/
def systemContent (systemPrompt : Option String) : String :=
  match systemPrompt with
  | none => DEFAULT_SYSTEM_PROMPT
  | some s => if s.isEmpty then DEFAULT_SYSTEM_PROMPT else s

/-- Argument record of `openai.ChatCompletion.create` as built by
`call_openai` (lines 410-418) and `stream_openai_response`
(lines 602-611).  `temperatureTenths = 7` stands for the literal
`temperature=0.7`. -/
structure ChatReq where
  model : String
  system : String
  user : String
  temperatureTenths : Nat
  maxTokens : Nat
  stream : Bool
deriving DecidableEq

/-- JSON payload of the `requests.post` to `{OLLAMA_BASE_URL}/api/generate`
as built by `call_ollama` (lines 433-445) and `stream_ollama_response`
(lines 544-557).  The backend has no system role: the payload prompt is
`f"{system_content}\n\n{prompt}"`. -/
structure OllamaReq where
  model : String
  prompt : String
  stream : Bool
  temperatureTenths : Nat
  numPredict : Nat
deriving DecidableEq

def openaiCallReq (prompt : String) (modelName systemPrompt : Option String) : ChatReq :=
  { model := modelName.getD "gpt-3.5-turbo"
    system := systemContent systemPrompt
    user := prompt
    temperatureTenths := 7
    maxTokens := 1000
    stream := false }

def openaiStreamReq (prompt : String) (modelName systemPrompt : Option String) : ChatReq :=
  { model := modelName.getD "gpt-3.5-turbo"
    system := systemContent systemPrompt
    user := prompt
    temperatureTenths := 7
    maxTokens := 1000
    stream := true }

def ollamaCallReq (prompt : String) (modelName systemPrompt : Option String) : OllamaReq :=
  { model := modelName.getD "llama2"
    prompt := systemContent systemPrompt ++ "\n\n" ++ prompt
    stream := false
    temperatureTenths := 7
    numPredict := 1000 }

def ollamaStreamReq (prompt : String) (modelName systemPrompt : Option String) : OllamaReq :=
  { model := modelName.getD "llama2"
    prompt := systemContent systemPrompt ++ "\n\n" ++ prompt
    stream := true
    temperatureTenths := 7
    numPredict := 1000 }

/-! ## Requests, responses and the endpoint handlers -/

/-- `ProcessRequest` (`main.py` lines 83-91).  Optional string fields;
Pydantic supplies the documented defaults, and explicit nulls arrive
as `none`. -/
structure ProcessRequest where
  text : Option String := none
  url : Option String := none
  task_type : Option String := some "general"
  format_type : Option String := some "json"
  additional_context : Option String := none
  model_provider : Option String := some "openai"
  model_name : Option String := none
  system_prompt : Option String := none
deriving DecidableEq

/-- `ProcessResponse` (`main.py` lines 93-99).  `processing_time` is
wall-clock seconds; we keep it as the abstract tick count supplied by
the caller's clock. -/
structure ProcessResponse where
  success : Bool
  result : String
  model_used : String
  processing_time : Nat
  source_type : String
  source : String
deriving DecidableEq

/-- Python truthiness of an `Optional[str]`: `None` and `""` are falsy. -/
def isTruthy : Option String → Bool
  | none => false
  | some s => !s.isEmpty

/-- `request.text[:100] + "..." if len(request.text) > 100 else request.text`
(line 315 and 368). -/
def preview (t : String) : String :=
  if t.length > 100 then takeChars 100 t ++ "..." else t

structure ResolvedSource where
  kind : String
  body : String
  source : String
deriving DecidableEq

/-- The input-source resolution shared by `process_with_ai`
(lines 307-320) and `process_with_ai_stream` (lines 361-373), which
duplicate it verbatim: a truthy `url` wins and is fetched; otherwise a
truthy `text` is used verbatim with a 100-character preview as label;
otherwise `HTTPException(400, ...)` is raised. -/
def resolveSource (fetch : String → Except ApiErr String) (req : ProcessRequest) :
    Except ApiErr ResolvedSource :=
  if isTruthy req.url then
    match fetch (req.url.getD "") with
    | .ok body => .ok ⟨"url", body, req.url.getD ""⟩
    | .error e => .error e
  else if isTruthy req.text then
    .ok ⟨"text", req.text.getD "", preview (req.text.getD "")⟩
  else
    .error (.http 400 "Either 'text' or 'url' must be provided for processing.")

/-- The provider dispatch of lines 326-331: `model_provider == "ollama"`
selects the local backend, anything else the hosted one; the returned
pair is `(result, model_used)`. -/
def selectCall (callOa callOl : String → Option String → Option String → Except ApiErr String)
    (req : ProcessRequest) (prompt : String) : Except ApiErr (String × String) :=
  if req.model_provider == some "ollama" then
    (callOl prompt req.model_name req.system_prompt).map
      (fun t => (t, "ollama:" ++ req.model_name.getD "llama2"))
  else
    (callOa prompt req.model_name req.system_prompt).map
      (fun t => (t, "openai:" ++ req.model_name.getD "gpt-3.5-turbo"))

/-- `process_with_ai` (`main.py` lines 298-349).  `fetch` is
`fetch_web_content`; `callOa`/`callOl` are `call_openai`/`call_ollama`
as oracles from `(prompt, model_name, system_prompt)` to a result or a
raised exception; `elapsed` is the measured wall-clock delta.  The
whole body sits in a `try` whose `except Exception` re-raises
EVERYTHING (including the handler's own `HTTPException`s) as
`HTTPException(500, f"AI processing failed: {str(e)}")`. -/
def processWithAi (fetch : String → Except ApiErr String)
    (callOa callOl : String → Option String → Option String → Except ApiErr String)
    (elapsed : Nat) (req : ProcessRequest) : Except ApiErr ProcessResponse :=
  let inner : Except ApiErr ProcessResponse :=
    match resolveSource fetch req with
    | .error e => .error e
    | .ok r =>
      match selectCall callOa callOl req (buildPrompt r.body r.kind) with
      | .error e => .error e
      | .ok (result, modelUsed) =>
        .ok { success := true
              result := result
              model_used := modelUsed
              processing_time := elapsed
              source_type := r.kind
              source := r.source }
  match inner with
  | .ok resp => .ok resp
  | .error e => .error (.http 500 ("AI processing failed: " ++ e.toMessage))

/-! ## Streaming (`stream_ollama_response`, `stream_openai_response`) -/

/-- A streamed frame, i.e. the JSON object serialized into one
`data: <json>\n\n` line.  `chunk text done` is
`{"chunk": text, "done": done}`; `doneF ...` is the terminal
`{"done": true, "processing_time": ..., "model_used": ...,
"source_type": ..., "source": ...}`; `errorF msg` is
`{"error": msg}`. -/
inductive Frame where
  | chunk (text : String) (done : Bool)
  | doneF (processingTime : Nat) (modelUsed : String) (sourceType : String) (source : String)
  | errorF (msg : String)
deriving DecidableEq

/-- One item of `response.iter_lines()` as seen by the Ollama stream
loop (lines 565-580): `bad` is an empty line or one that fails
`json.loads` (silently skipped); `obj r d` is a decoded object whose
`response` field is `r` (`none` when the key is absent) and whose
`done` field is `d` (`data.get('done', False)`). -/
inductive OllamaLine where
  | bad
  | obj (response : Option String) (done : Bool)
deriving DecidableEq

def OllamaLine.isDone : OllamaLine → Bool
  | .obj _ d => d
  | .bad => false

/-- The loop of `stream_ollama_response` lines 564-580: for each line,
a decoded object with a `response` key yields a chunk frame whose
`done` field MIRRORS `data.get('done', False)`; an object reporting
completion then yields the terminal frame and breaks.  If the line
iterator is exhausted without completion, `exc = some m` models an
exception raised by the transport (lines 582-587 yield `errorF m`);
`exc = none` models the iterator simply ending, after which the
generator returns with no further frame. -/
def ollamaGo (exc : Option String) (procTime : Nat) (model sourceType source : String) :
    List OllamaLine → List Frame
  | [] => match exc with
          | some m => [.errorF m]
          | none => []
  | .bad :: rest => ollamaGo exc procTime model sourceType source rest
  | .obj r d :: rest =>
    let chunkPart : List Frame := match r with
      | some c => [.chunk c d]
      | none => []
    if d then chunkPart ++ [.doneF procTime ("ollama:" ++ model) sourceType source]
    else chunkPart ++ ollamaGo exc procTime model sourceType source rest

/-- `stream_ollama_response` (`main.py` lines 532-587) over an abstract
transport: `status` is the HTTP status of the generate call, `lines`
the NDJSON line stream, `exc` an optional transport exception
interrupting the iteration (its message as yielded by lines 584/587). -/
def streamOllamaEvents (status : Nat) (lines : List OllamaLine) (exc : Option String)
    (procTime : Nat) (modelName : Option String) (sourceType source : String) : List Frame :=
  let model := modelName.getD "llama2"
  if status != 200 then [.errorF ("Ollama API error: " ++ toString status)]
  else ollamaGo exc procTime model sourceType source lines

/-- `stream_openai_response` (`main.py` lines 589-624): without a key a
single error frame; otherwise each delta with truthy content yields a
chunk frame with `done: false`, and after the iterator ends the
terminal frame is emitted — unless a transport exception (`exc`)
interrupts, which yields an error frame instead (line 624). -/
def openaiGo (exc : Option String) (procTime : Nat) (model sourceType source : String) :
    List (Option String) → List Frame
  | [] => match exc with
          | some m => [.errorF ("OpenAI API error: " ++ m)]
          | none => [.doneF procTime ("openai:" ++ model) sourceType source]
  | c :: rest =>
    match c with
    | some s =>
      if s.isEmpty then openaiGo exc procTime model sourceType source rest
      else .chunk s false :: openaiGo exc procTime model sourceType source rest
    | none => openaiGo exc procTime model sourceType source rest

def streamOpenaiEvents (keyPresent : Bool) (deltas : List (Option String))
    (exc : Option String) (procTime : Nat) (modelName : Option String)
    (sourceType source : String) : List Frame :=
  if !keyPresent then [.errorF "OpenAI API key not configured"]
  else openaiGo exc procTime (modelName.getD "gpt-3.5-turbo") sourceType source deltas

/-- `process_with_ai_stream` (`main.py` lines 351-395): same resolution
and prompt construction as the single-shot endpoint, then hands off to
the chosen stream generator (modelled as an oracle from
`(prompt, model_name, system_prompt, source_type, source)` to the
emitted frames).  Failures before the hand-off are wrapped by the same
blanket `except Exception` into a 500. -/
def processWithAiStream (fetch : String → Except ApiErr String)
    (streamOl streamOa : String → Option String → Option String → String → String → List Frame)
    (req : ProcessRequest) : Except ApiErr (List Frame) :=
  let inner : Except ApiErr (List Frame) :=
    match resolveSource fetch req with
    | .error e => .error e
    | .ok r =>
      let prompt := buildPrompt r.body r.kind
      if req.model_provider == some "ollama" then
        .ok (streamOl prompt req.model_name req.system_prompt r.kind r.source)
      else
        .ok (streamOa prompt req.model_name req.system_prompt r.kind r.source)
  match inner with
  | .ok evs => .ok evs
  | .error e => .error (.http 500 ("AI processing failed: " ++ e.toMessage))

/-! ## Stream shape predicates -/

def isTerminal : Frame → Bool
  | .chunk _ _ => false
  | .doneF _ _ _ _ => true
  | .errorF _ => true

def terminalCount (es : List Frame) : Nat := (es.filter isTerminal).length

/-- A terminal frame may appear only as the last element. -/
def okShape : List Frame → Bool
  | [] => true
  | [_] => true
  | e :: rest => !(isTerminal e) && okShape rest

def endsTerminal (es : List Frame) : Bool :=
  match es.getLast? with
  | some e => isTerminal e
  | none => false

/-- Every chunk frame carries `done = false`. -/
def chunksAllFalse : List Frame → Bool
  | [] => true
  | .chunk _ d :: rest => !d && chunksAllFalse rest
  | _ :: rest => chunksAllFalse rest

/-- Every chunk frame carrying `done = true` is immediately followed by
the terminal done frame. -/
def chunkTrueBeforeDone : List Frame → Bool
  | .chunk _ true :: rest =>
    (match rest with
     | .doneF _ _ _ _ :: _ => true
     | _ => false) && chunkTrueBeforeDone rest
  | _ :: rest => chunkTrueBeforeDone rest
  | [] => true

/-! # Theorems -/

/-! ## C8: purity of the prompt builder -/

/-- C8: the prompt builder is a pure, deterministic function of
`(body, sourceKind)`: its result is byte-identical across calls and
independent of all module state (API key, base URL, clock). -/
theorem c8_build_prompt_pure (σ σ' : GlobalState) (body kind : String) :
    buildPromptIn σ body kind = buildPromptIn σ' body kind ∧
    buildPromptIn σ body kind = buildPrompt body kind := ⟨rfl, rfl⟩

/-! ## C10: empty system prompt behaves like an absent one -/

/-- C10: on all four call paths (single-shot and streaming, both
providers), a caller-supplied `system_prompt` equal to `""` produces
exactly the outbound request produced by an absent `system_prompt`
(the fixed default JSON-structuring instruction); only a non-empty
`system_prompt` overrides the default. -/
theorem c10_empty_system_prompt_defaults (p : String) (m : Option String) :
    (openaiCallReq p m (some "") = openaiCallReq p m none
      ∧ (openaiCallReq p m none).system = DEFAULT_SYSTEM_PROMPT)
  ∧ (openaiStreamReq p m (some "") = openaiStreamReq p m none
      ∧ (openaiStreamReq p m none).system = DEFAULT_SYSTEM_PROMPT)
  ∧ (ollamaCallReq p m (some "") = ollamaCallReq p m none
      ∧ (ollamaCallReq p m none).prompt = DEFAULT_SYSTEM_PROMPT ++ "\n\n" ++ p)
  ∧ (ollamaStreamReq p m (some "") = ollamaStreamReq p m none
      ∧ (ollamaStreamReq p m none).prompt = DEFAULT_SYSTEM_PROMPT ++ "\n\n" ++ p)
  ∧ (∀ s : String, s ≠ "" →
      (openaiCallReq p m (some s)).system = s
      ∧ (openaiStreamReq p m (some s)).system = s
      ∧ (ollamaCallReq p m (some s)).prompt = s ++ "\n\n" ++ p
      ∧ (ollamaStreamReq p m (some s)).prompt = s ++ "\n\n" ++ p) := by
  refine ⟨⟨rfl, rfl⟩, ⟨rfl, rfl⟩, ⟨rfl, rfl⟩, ⟨rfl, rfl⟩, ?_⟩
  intro s hs
  have he : s.isEmpty = false := by
    cases h : s.isEmpty
    · rfl
    · exact absurd ((String.isEmpty_iff s).mp h) hs
  refine ⟨?_, ?_, ?_, ?_⟩ <;>
    simp [openaiCallReq, openaiStreamReq, ollamaCallReq, ollamaStreamReq, systemContent, he]

/-- Witness for C10 at a concrete non-empty custom system prompt. -/
theorem c10_witness :
    (openaiCallReq "P" none (some "CUSTOM")).system = "CUSTOM"
    ∧ (ollamaStreamReq "P" none (some "CUSTOM")).prompt = "CUSTOM" ++ "\n\n" ++ "P" := by
  have h := (c10_empty_system_prompt_defaults "P" none).2.2.2.2 "CUSTOM" (by decide)
  exact ⟨h.1, h.2.2.2⟩

/-! ## C1: the bare host+path URL form -/

/-- C1 (code bug): the claim says a bare host+path url such as
`"example.com/page"` gets `https://` prepended and is then fetched.
The code instead validates scheme+netloc BEFORE the prepend, so that
input is rejected outright with the `InvalidInput`-style
`HTTPException(400, "Error processing URL: Invalid URL format")`,
independently of the HTTP transport (no fetch happens).  The comment
`# Add scheme if missing` (line 494) documents the claimed intent the
code fails to implement. -/
theorem c1_bare_url_rejected_without_fetch (http : String → FetchResult) :
    fetchWebContent http "example.com/page" =
      .error (.http 400 "Error processing URL: Invalid URL format") := rfl

/-! ## C2: failure statuses surfaced by /process -/

/-- C2 (code bug): the claim (and the taxonomy of the spec) says
missing-input and fetch failures surface as 4xx.  The blanket
`except Exception` of `process_with_ai` (lines 344-349) catches the
handler's own `HTTPException(400, ...)` and re-raises it as a 500, so
the caller always sees a 5xx: here evaluated on a request with neither
`text` nor `url`, and on a request whose URL fetch fails. -/
theorem c2_failures_surface_as_500 :
    (∀ (fetch : String → Except ApiErr String)
       (callOa callOl : String → Option String → Option String → Except ApiErr String)
       (elapsed : Nat),
       processWithAi fetch callOa callOl elapsed {} =
         .error (.http 500 "AI processing failed: 400: Either 'text' or 'url' must be provided for processing."))
  ∧ (∀ (callOa callOl : String → Option String → Option String → Except ApiErr String)
       (elapsed : Nat),
       processWithAi (fetchWebContent (fun _ => FetchResult.failure "boom"))
           callOa callOl elapsed { url := some "https://x" } =
         .error (.http 500 "AI processing failed: 400: Failed to fetch URL: boom")) :=
  ⟨fun _ _ _ _ => rfl, fun _ _ _ => rfl⟩

/-! ## C5: missing input is rejected before any network call -/

/-- C5: when both `text` and `url` are absent or empty, the resolver
fails with the 400 `InvalidInput` rejection, and neither endpoint's
result depends on the fetch or backend oracles — no network call of
any kind is made.  (That the endpoint then re-wraps the 400 into a 500
is the separate defect recorded at C2.) -/
theorem c5_missing_input_no_network (req : ProcessRequest)
    (ht : isTruthy req.text = false) (hu : isTruthy req.url = false) :
    (∀ fetch, resolveSource fetch req =
        .error (.http 400 "Either 'text' or 'url' must be provided for processing."))
  ∧ (∀ (fetch₁ fetch₂ : String → Except ApiErr String)
       (callOa₁ callOa₂ callOl₁ callOl₂ : String → Option String → Option String → Except ApiErr String)
       (elapsed : Nat),
       processWithAi fetch₁ callOa₁ callOl₁ elapsed req =
       processWithAi fetch₂ callOa₂ callOl₂ elapsed req)
  ∧ (∀ (fetch₁ fetch₂ : String → Except ApiErr String)
       (sOl₁ sOl₂ sOa₁ sOa₂ : String → Option String → Option String → String → String → List Frame),
       processWithAiStream fetch₁ sOl₁ sOa₁ req =
       processWithAiStream fetch₂ sOl₂ sOa₂ req) := by
  refine ⟨fun fetch => ?_, fun f₁ f₂ a₁ a₂ l₁ l₂ e => ?_, fun f₁ f₂ a₁ a₂ l₁ l₂ => ?_⟩ <;>
    simp [resolveSource, processWithAi, processWithAiStream, ht, hu]

/-- Witness for C5: the empty request, with two deliberately different
oracle sets giving identical outcomes. -/
theorem c5_witness :
    resolveSource (fun _ => .ok "BODY") {} =
      .error (.http 400 "Either 'text' or 'url' must be provided for processing.")
    ∧ processWithAi (fun _ => .ok "A") (fun _ _ _ => .ok "RA") (fun _ _ _ => .ok "RA") 7 {} =
      processWithAi (fun _ => .error (.exc "down")) (fun _ _ _ => .error (.exc "x")) (fun _ _ _ => .ok "RB") 7 {} := by
  have h := c5_missing_input_no_network {} rfl rfl
  exact ⟨h.1 _, h.2.1 _ _ _ _ _ _ _⟩

/-! ## C6: truncation of url-sourced bodies -/

/-- C6: a `url`-sourced resolved body never exceeds 8000 characters
plus the fixed truncation marker, and a page whose sanitized content
is under 8000 characters is returned exactly as sanitized, with no
truncation applied. -/
theorem c6_url_body_truncation :
    (∀ (http : String → FetchResult) (url body : String),
        fetchWebContent http url = .ok body →
        body.length ≤ 8000 + truncMarker.length)
  ∧ (∀ (page url body : String),
        fetchWebContent (fun _ => FetchResult.success page) url = .ok body →
        (sanitizeStr page).length < 8000 →
        body = sanitizeStr page) := by
  have hlen : ∀ s : String, (truncateContent s).length ≤ 8000 + truncMarker.length := by
    intro s
    unfold truncateContent
    split
    · have : (takeChars 8000 s).length ≤ 8000 := by
        have he : (takeChars 8000 s).length = (s.data.take 8000).length := rfl
        rw [he, List.length_take]; omega
      calc (takeChars 8000 s ++ truncMarker).length
          = (takeChars 8000 s).length + truncMarker.length := String.length_append _ _
        _ ≤ 8000 + truncMarker.length := by omega
    · omega
  constructor
  · intro http url body h
    unfold fetchWebContent at h
    split at h
    · exact Except.noConfusion h
    · cases hx : http (prependedUrl url) with
      | failure msg => rw [hx] at h; exact Except.noConfusion h
      | success page =>
        rw [hx] at h
        injection h with h
        rw [← h]; exact hlen _
  · intro page url body h hsmall
    unfold fetchWebContent at h
    split at h
    · exact Except.noConfusion h
    · dsimp only at h
      injection h with h
      rw [← h]
      unfold truncateContent
      split
      · omega
      · rfl

/-- Witness for C6 at a concrete fetched page `"<b>hi</b>"`. -/
theorem c6_witness :
    ("hi" : String).length ≤ 8000 + truncMarker.length
    ∧ ("hi" : String) = sanitizeStr "<b>hi</b>" := by
  have hsan : sanitizeStr "<b>hi</b>" = "hi" := by
    simp [sanitizeStr, sanitizeL, stripBlock, stripTags, collapse, trim, trimLeft, trimR,
          gtSplitAfter, ciPrefOf, closeIdx, closeHere, headIsGt, isWs]
  have htr : truncateContent "hi" = "hi" := by
    unfold truncateContent
    rw [if_neg]
    decide
  have hfetch : fetchWebContent (fun _ => FetchResult.success "<b>hi</b>") "https://x" = .ok "hi" := by
    simp [fetchWebContent, urlValid, splitScheme, netlocOf, prependedUrl, startsWithStr,
          isAsciiAlpha, isSchemeChar, hsan, htr]
  exact ⟨c6_url_body_truncation.1 (fun _ => FetchResult.success "<b>hi</b>") "https://x" "hi" hfetch,
         c6_url_body_truncation.2 "<b>hi</b>" "https://x" "hi" hfetch (by rw [hsan]; decide)⟩

/-! ## C9: url precedence over text -/

/-- C9: when both `text` and `url` are non-empty, the url wins: the
resolver fetches the url, the envelope's `source_type` is `"url"` and
its `source` is the url, and the `text` field is ignored entirely —
on the single-shot and the streaming endpoint alike. -/
theorem c9_url_precedence (fetch : String → Except ApiErr String)
    (callOa callOl : String → Option String → Option String → Except ApiErr String)
    (sOl sOa : String → Option String → Option String → String → String → List Frame)
    (elapsed : Nat) (req : ProcessRequest)
    (hu : isTruthy req.url = true) (ht : isTruthy req.text = true) :
    (∀ b, fetch (req.url.getD "") = .ok b →
        resolveSource fetch req = .ok ⟨"url", b, req.url.getD ""⟩)
  ∧ (∀ t', processWithAi fetch callOa callOl elapsed { req with text := t' } =
        processWithAi fetch callOa callOl elapsed req)
  ∧ (∀ t', processWithAiStream fetch sOl sOa { req with text := t' } =
        processWithAiStream fetch sOl sOa req)
  ∧ (∀ resp, processWithAi fetch callOa callOl elapsed req = .ok resp →
        resp.source_type = "url" ∧ resp.source = req.url.getD "") := by
  refine ⟨fun b hb => ?_, fun t' => ?_, fun t' => ?_, fun resp h => ?_⟩
  · simp [resolveSource, hu, hb]
  · simp [processWithAi, resolveSource, selectCall, hu]
  · simp [processWithAiStream, resolveSource, hu]
  · simp only [processWithAi] at h
    cases hb : fetch (req.url.getD "") with
    | error e =>
      have hres : resolveSource fetch req = .error e := by
        simp [resolveSource, hu, hb]
      rw [hres] at h
      exact Except.noConfusion h
    | ok b =>
      have hres : resolveSource fetch req = .ok ⟨"url", b, req.url.getD ""⟩ := by
        simp [resolveSource, hu, hb]
      rw [hres] at h
      dsimp only at h
      cases hc : selectCall callOa callOl req (buildPrompt b "url") with
      | error e => rw [hc] at h; exact Except.noConfusion h
      | ok p =>
        obtain ⟨result, modelUsed⟩ := p
        rw [hc] at h
        injection h with h
        rw [← h]
        exact ⟨rfl, rfl⟩

/-- Witness for C9: both fields non-empty, the url branch is taken and
a changed `text` leaves the endpoint result unchanged. -/
theorem c9_witness :
    resolveSource (fun _ => (.ok "B" : Except ApiErr String))
        { text := some "T", url := some "https://x" } = .ok ⟨"url", "B", "https://x"⟩
    ∧ processWithAi (fun _ => .ok "B") (fun _ _ _ => .ok "R") (fun _ _ _ => .ok "R") 0
        { text := some "OTHER", url := some "https://x" } =
      processWithAi (fun _ => .ok "B") (fun _ _ _ => .ok "R") (fun _ _ _ => .ok "R") 0
        { text := some "T", url := some "https://x" } := by
  have h := c9_url_precedence (fun _ => .ok "B") (fun _ _ _ => .ok "R") (fun _ _ _ => .ok "R")
    (fun _ _ _ _ _ => []) (fun _ _ _ _ _ => []) 0
    { text := some "T", url := some "https://x" } rfl rfl
  exact ⟨h.1 "B" rfl, h.2.1 (some "OTHER")⟩

/-! ## Stream shape lemmas -/

theorem okShape_cons_of (e : Frame) (l : List Frame)
    (he : isTerminal e = false) (hl : okShape l = true) : okShape (e :: l) = true := by
  cases l with
  | nil => rfl
  | cons f fs => simp [okShape, he, hl]

theorem terminalCount_cons (e : Frame) (l : List Frame) :
    terminalCount (e :: l) = (if isTerminal e then 1 else 0) + terminalCount l := by
  simp only [terminalCount, List.filter_cons]
  cases isTerminal e <;> simp <;> omega

/-- Shape invariants of the Ollama stream loop: a terminal frame can
only be last, at most one terminal is emitted, and exactly one is
emitted whenever a completion object occurs or a transport exception
fires. -/
theorem ollamaGo_props (exc : Option String) (pt : Nat) (model st src : String)
    (lines : List OllamaLine) :
    okShape (ollamaGo exc pt model st src lines) = true
  ∧ terminalCount (ollamaGo exc pt model st src lines) ≤ 1
  ∧ ((exc.isSome = true ∨ ∃ l ∈ lines, OllamaLine.isDone l = true) →
      terminalCount (ollamaGo exc pt model st src lines) = 1) := by
  induction lines with
  | nil =>
    cases exc with
    | none =>
      refine ⟨rfl, by simp [ollamaGo, terminalCount], ?_⟩
      rintro (h | ⟨l, hl, _⟩)
      · simp at h
      · simp at hl
    | some m => exact ⟨rfl, by simp [ollamaGo, terminalCount, isTerminal], fun _ => by
        simp [ollamaGo, terminalCount, isTerminal]⟩
  | cons ln rest ih =>
    cases ln with
    | bad =>
      refine ⟨ih.1, ih.2.1, ?_⟩
      rintro (h | ⟨l, hl, hd⟩)
      · exact ih.2.2 (Or.inl h)
      · rcases List.mem_cons.mp hl with rfl | hl
        · simp [OllamaLine.isDone] at hd
        · exact ih.2.2 (Or.inr ⟨l, hl, hd⟩)
    | obj r d =>
      cases d with
      | true =>
        cases r with
        | some c =>
          refine ⟨?_, ?_, fun _ => ?_⟩ <;>
            simp [ollamaGo, okShape, terminalCount, isTerminal]
        | none =>
          refine ⟨?_, ?_, fun _ => ?_⟩ <;>
            simp [ollamaGo, okShape, terminalCount, isTerminal]
      | false =>
        have htrig : (exc.isSome = true ∨ ∃ l ∈ OllamaLine.obj r false :: rest, OllamaLine.isDone l = true) →
            (exc.isSome = true ∨ ∃ l ∈ rest, OllamaLine.isDone l = true) := by
          rintro (h | ⟨l, hl, hd⟩)
          · exact Or.inl h
          · rcases List.mem_cons.mp hl with rfl | hl
            · simp [OllamaLine.isDone] at hd
            · exact Or.inr ⟨l, hl, hd⟩
        cases r with
        | some c =>
          have h1 : ollamaGo exc pt model st src (OllamaLine.obj (some c) false :: rest) =
              Frame.chunk c false :: ollamaGo exc pt model st src rest := by
            simp [ollamaGo]
          rw [h1]
          refine ⟨okShape_cons_of _ _ rfl ih.1, ?_, ?_⟩
          · rw [terminalCount_cons]
            simpa [isTerminal] using ih.2.1
          · intro h
            rw [terminalCount_cons]
            simpa [isTerminal] using ih.2.2 (htrig h)
        | none =>
          have h1 : ollamaGo exc pt model st src (OllamaLine.obj none false :: rest) =
              ollamaGo exc pt model st src rest := by
            simp [ollamaGo]
          rw [h1]
          exact ⟨ih.1, ih.2.1, fun h => ih.2.2 (htrig h)⟩

/-- Shape invariants of the OpenAI stream loop: always exactly one
terminal frame, and only in last position. -/
theorem openaiGo_props (exc : Option String) (pt : Nat) (model st src : String)
    (deltas : List (Option String)) :
    okShape (openaiGo exc pt model st src deltas) = true
  ∧ terminalCount (openaiGo exc pt model st src deltas) = 1 := by
  induction deltas with
  | nil =>
    cases exc with
    | none => exact ⟨rfl, by simp [openaiGo, terminalCount, isTerminal]⟩
    | some m => exact ⟨rfl, by simp [openaiGo, terminalCount, isTerminal]⟩
  | cons c rest ih =>
    cases c with
    | none => simpa [openaiGo] using ih
    | some s =>
      by_cases hs : s.isEmpty
      · simpa [openaiGo, hs] using ih
      · have h1 : openaiGo exc pt model st src (some s :: rest) =
            Frame.chunk s false :: openaiGo exc pt model st src rest := by
          simp [openaiGo, hs]
        rw [h1]
        refine ⟨okShape_cons_of _ _ rfl ih.1, ?_⟩
        rw [terminalCount_cons]
        simpa [isTerminal] using ih.2

/-! ## C3: terminal events of a stream -/

/-- C3 counterexample: the claim says every stream ends in exactly one
terminal (`Done`/`Error`) frame, "in particular when the local
backend's line stream ends without ever reporting completion".  On
exactly that input — a single chunk line and then end of stream — the
generator falls off the loop and emits NO terminal frame at all. -/
theorem c3_counterexample :
    terminalCount (streamOllamaEvents 200 [.obj (some "Hi") false] none 0 none "text" "s") = 0
    ∧ streamOllamaEvents 200 [.obj (some "Hi") false] none 0 none "text" "s" =
        [Frame.chunk "Hi" false] := by
  constructor <;> rfl

/-- C3 (amended): a terminal frame appears at most once and only in
last position, with no chunk after it; the hosted-variant stream
always emits exactly one terminal frame; the local-variant stream
emits exactly one whenever the generate call has non-200 status, a
transport exception fires, or some line reports completion — but when
the line stream ends with none of these, it emits no terminal frame
at all. -/
theorem c3_amended (key : Bool) (deltas : List (Option String)) (excA : Option String)
    (ptA : Nat) (mA : Option String) (stA srcA : String)
    (status : Nat) (lines : List OllamaLine) (excB : Option String)
    (ptB : Nat) (mB : Option String) (stB srcB : String) :
    (okShape (streamOpenaiEvents key deltas excA ptA mA stA srcA) = true
      ∧ terminalCount (streamOpenaiEvents key deltas excA ptA mA stA srcA) = 1)
  ∧ (okShape (streamOllamaEvents status lines excB ptB mB stB srcB) = true
      ∧ terminalCount (streamOllamaEvents status lines excB ptB mB stB srcB) ≤ 1
      ∧ ((status ≠ 200 ∨ excB.isSome = true ∨ ∃ l ∈ lines, OllamaLine.isDone l = true) →
          terminalCount (streamOllamaEvents status lines excB ptB mB stB srcB) = 1)) := by
  constructor
  · cases key with
    | false => exact ⟨rfl, rfl⟩
    | true =>
      have h := openaiGo_props excA ptA (mA.getD "gpt-3.5-turbo") stA srcA deltas
      exact ⟨h.1, h.2⟩
  · by_cases hst : status = 200
    · subst hst
      have h := ollamaGo_props excB ptB (mB.getD "llama2") stB srcB lines
      have he : streamOllamaEvents 200 lines excB ptB mB stB srcB =
          ollamaGo excB ptB (mB.getD "llama2") stB srcB lines := by
        simp [streamOllamaEvents]
      rw [he]
      refine ⟨h.1, h.2.1, ?_⟩
      rintro (hc | hc | hc)
      · exact absurd rfl hc
      · exact h.2.2 (Or.inl hc)
      · exact h.2.2 (Or.inr hc)
    · have he : streamOllamaEvents status lines excB ptB mB stB srcB =
          [.errorF ("Ollama API error: " ++ toString status)] := by
        simp [streamOllamaEvents, hst]
      rw [he]
      exact ⟨rfl, by simp [terminalCount, isTerminal], fun _ => by simp [terminalCount, isTerminal]⟩

/-- Witness for C3 (amended), on a completing local stream and a
hosted stream with one delta. -/
theorem c3_witness :
    terminalCount (streamOllamaEvents 200 [.obj (some "x") true] none 0 none "text" "s") = 1
    ∧ okShape (streamOpenaiEvents true [some "a"] none 0 none "text" "s") = true := by
  have h := c3_amended true [some "a"] none 0 none "text" "s"
    200 [.obj (some "x") true] none 0 none "text" "s"
  exact ⟨h.2.2.2 (Or.inr (Or.inr ⟨.obj (some "x") true, List.mem_singleton.mpr rfl, rfl⟩)), h.1.1⟩

/-! ## C4: the `done` field of chunk frames -/

/-- C4 counterexample: the claim says every chunk frame is serialized
with `done: false`, including the chunk produced for the final line of
a local stream whose object reports completion.  That very chunk
mirrors the object's `done` flag and carries `done: true`. -/
theorem c4_counterexample :
    Frame.chunk "x" true ∈ streamOllamaEvents 200 [.obj (some "x") true] none 0 none "text" "s"
    ∧ streamOllamaEvents 200 [.obj (some "x") true] none 0 none "text" "s" =
        [Frame.chunk "x" true, Frame.doneF 0 "ollama:llama2" "text" "s"] := by
  constructor
  · rw [show streamOllamaEvents 200 [.obj (some "x") true] none 0 none "text" "s" =
        [Frame.chunk "x" true, Frame.doneF 0 "ollama:llama2" "text" "s"] from rfl]
    exact List.mem_cons_self _ _
  · rfl

theorem chunksAllFalse_openaiGo (exc : Option String) (pt : Nat) (model st src : String)
    (deltas : List (Option String)) :
    chunksAllFalse (openaiGo exc pt model st src deltas) = true := by
  induction deltas with
  | nil => cases exc <;> rfl
  | cons c rest ih =>
    cases c with
    | none => simpa [openaiGo] using ih
    | some s =>
      by_cases hs : s.isEmpty
      · simpa [openaiGo, hs] using ih
      · have h1 : openaiGo exc pt model st src (some s :: rest) =
            Frame.chunk s false :: openaiGo exc pt model st src rest := by
          simp [openaiGo, hs]
        rw [h1]
        simpa [chunksAllFalse] using ih

theorem chunkTrueBeforeDone_ollamaGo (exc : Option String) (pt : Nat) (model st src : String)
    (lines : List OllamaLine) :
    chunkTrueBeforeDone (ollamaGo exc pt model st src lines) = true := by
  induction lines with
  | nil => cases exc <;> rfl
  | cons ln rest ih =>
    cases ln with
    | bad => simpa [ollamaGo] using ih
    | obj r d =>
      cases d with
      | true => cases r <;> rfl
      | false =>
        cases r with
        | some c =>
          have h1 : ollamaGo exc pt model st src (OllamaLine.obj (some c) false :: rest) =
              Frame.chunk c false :: ollamaGo exc pt model st src rest := by
            simp [ollamaGo]
          rw [h1]
          simpa [chunkTrueBeforeDone] using ih
        | none => simpa [ollamaGo] using ih

/-- C4 (amended): every hosted-variant chunk frame carries
`done: false`; on the local variant the chunk frame's `done` field
mirrors the decoded object's `done` flag, so the chunk produced for a
completion-reporting line carries `done: true` and is immediately
followed by the terminal done frame, while all other chunks carry
`done: false`. -/
theorem c4_amended (key : Bool) (deltas : List (Option String)) (excA : Option String)
    (ptA : Nat) (mA : Option String) (stA srcA : String)
    (status : Nat) (lines : List OllamaLine) (excB : Option String)
    (ptB : Nat) (mB : Option String) (stB srcB : String) :
    chunksAllFalse (streamOpenaiEvents key deltas excA ptA mA stA srcA) = true
  ∧ chunkTrueBeforeDone (streamOllamaEvents status lines excB ptB mB stB srcB) = true := by
  constructor
  · cases key with
    | false => rfl
    | true => exact chunksAllFalse_openaiGo excA ptA (mA.getD "gpt-3.5-turbo") stA srcA deltas
  · by_cases hst : status = 200
    · subst hst
      have he : streamOllamaEvents 200 lines excB ptB mB stB srcB =
          ollamaGo excB ptB (mB.getD "llama2") stB srcB lines := by
        simp [streamOllamaEvents]
      rw [he]
      exact chunkTrueBeforeDone_ollamaGo excB ptB (mB.getD "llama2") stB srcB lines
    · have he : streamOllamaEvents status lines excB ptB mB stB srcB =
          [.errorF ("Ollama API error: " ++ toString status)] := by
        simp [streamOllamaEvents, hst]
      rw [he]; rfl

/-! ## C7: idempotence of sanitization

Strategy: the output of `stripTags` satisfies `noTagB` (every `<` is
immediately followed by `>` or has no `>` after it), a property that
`collapse` and `trim` preserve; on `noTagB` text all three tag/block
strippers are the identity.  Likewise `collapse`'s output is
whitespace-normal (`wsNormB`), preserved by `trim`, and `collapse` is
the identity on whitespace-normal text; `trim` is idempotent. -/

theorem contains_gt (l : List Char) : l.contains '>' = true ↔ '>' ∈ l := by
  simp [List.contains]

theorem noTagB_tail {c : Char} {l : List Char} (h : noTagB (c :: l) = true) :
    noTagB l = true := by
  simp only [noTagB, Bool.and_eq_true] at h
  exact h.2

theorem noTagB_cons_iff (c : Char) (l : List Char) :
    noTagB (c :: l) = true ↔
      ((c = '<' → headIsGt l = true ∨ '>' ∉ l) ∧ noTagB l = true) := by
  simp only [noTagB, Bool.and_eq_true]
  constructor
  · rintro ⟨h1, h2⟩
    refine ⟨fun hc => ?_, h2⟩
    subst hc
    simp only [beq_self_eq_true, if_true, Bool.or_eq_true, Bool.not_eq_true'] at h1
    rcases h1 with h | h
    · exact Or.inl h
    · exact Or.inr fun hm => by rw [(contains_gt l).mpr hm] at h; exact Bool.noConfusion h
  · rintro ⟨h1, h2⟩
    refine ⟨?_, h2⟩
    by_cases hc : c = '<'
    · subst hc
      simp only [beq_self_eq_true, if_true, Bool.or_eq_true, Bool.not_eq_true']
      rcases h1 rfl with h | h
      · exact Or.inl h
      · right
        cases hcont : l.contains '>'
        · rfl
        · exact absurd ((contains_gt l).mp hcont) h
    · have hb : (c == '<') = false := by simp [hc]
      simp [hb]

theorem headIsGt_iff (l : List Char) : headIsGt l = true ↔ ∃ r, l = '>' :: r := by
  unfold headIsGt
  split
  · rename_i r
    simp
  · rename_i hne
    constructor
    · intro h; exact Bool.noConfusion h
    · rintro ⟨r, rfl⟩
      exact absurd rfl (hne r)

theorem noTagB_of_no_gt {l : List Char} (h : '>' ∉ l) : noTagB l = true := by
  induction l with
  | nil => rfl
  | cons c rest ih =>
    rw [noTagB_cons_iff]
    exact ⟨fun _ => Or.inr fun hm => h (List.mem_cons_of_mem _ hm),
           ih fun hm => h (List.mem_cons_of_mem _ hm)⟩

/-! Unfolding equations of `stripTags`. -/

theorem gtSplitAfter_suffix (l : List Char) : List.IsSuffix (gtSplitAfter l) l := by
  unfold gtSplitAfter
  exact (List.tail_suffix _).trans (List.dropWhile_suffix _)

theorem stripTags_nil : stripTags [] = [] := by simp [stripTags]

theorem stripTags_cons_strip {c : Char} {rest : List Char}
    (h : (c == '<' && !(headIsGt rest) && rest.contains '>') = true) :
    stripTags (c :: rest) = stripTags (gtSplitAfter rest) := by
  rw [stripTags]
  rw [if_pos h]

theorem stripTags_cons_keep {c : Char} {rest : List Char}
    (h : (c == '<' && !(headIsGt rest) && rest.contains '>') = false) :
    stripTags (c :: rest) = c :: stripTags rest := by
  rw [stripTags]
  rw [if_neg (by rw [h]; exact Bool.noConfusion)]

theorem stripTags_sublist (l : List Char) : List.Sublist (stripTags l) l := by
  induction l using stripTags.induct with
  | case1 => rw [stripTags_nil]
  | case2 c rest hcond ih =>
    rw [stripTags_cons_strip hcond]
    refine List.Sublist.trans ih (List.Sublist.trans ?_ (List.sublist_cons_self c rest))
    exact (gtSplitAfter_suffix rest).sublist
  | case3 c rest hcond ih =>
    rw [stripTags_cons_keep (by simpa using hcond)]
    exact List.Sublist.cons₂ c ih

theorem mem_stripTags {x : Char} {l : List Char} (h : x ∈ stripTags l) : x ∈ l :=
  (stripTags_sublist l).subset h

theorem noTagB_stripTags (l : List Char) : noTagB (stripTags l) = true := by
  induction l using stripTags.induct with
  | case1 => rw [stripTags_nil]; rfl
  | case2 c rest hcond ih => rw [stripTags_cons_strip hcond]; exact ih
  | case3 c rest hcond ih =>
    have hcond' : (c == '<' && !(headIsGt rest) && rest.contains '>') = false := by
      simpa using hcond
    rw [stripTags_cons_keep hcond', noTagB_cons_iff]
    refine ⟨?_, ih⟩
    intro hc
    subst hc
    cases hgt : headIsGt rest with
    | true =>
      obtain ⟨r2, rfl⟩ := (headIsGt_iff rest).mp hgt
      left
      rw [stripTags_cons_keep (by simp)]
      rfl
    | false =>
      cases hct : rest.contains '>' with
      | false =>
        right
        intro hm
        have hx : rest.contains '>' = true := (contains_gt rest).mpr (mem_stripTags hm)
        rw [hx] at hct
        exact Bool.noConfusion hct
      | true =>
        rw [hgt, hct] at hcond'
        simp at hcond'

theorem stripTags_id {l : List Char} (h : noTagB l = true) : stripTags l = l := by
  induction l with
  | nil => simp [stripTags]
  | cons c rest ih =>
    obtain ⟨h1, h2⟩ := (noTagB_cons_iff c rest).mp h
    have hkeep : (c == '<' && !(headIsGt rest) && rest.contains '>') = false := by
      by_cases hc : c = '<'
      · subst hc
        rcases h1 rfl with hg | hg
        · simp [hg]
        · have hcf : rest.contains '>' = false := by
            cases hct : rest.contains '>'
            · rfl
            · exact absurd ((contains_gt rest).mp hct) hg
          rw [hcf]
          simp
      · simp [hc]
    rw [stripTags_cons_keep hkeep, ih h2]

/-! Unfolding equations of `stripBlock`, and its identity on tag-free
text. -/

theorem stripBlock_nil (tag : List Char) : stripBlock tag [] = [] := by
  simp [stripBlock]

theorem stripBlock_cons_keep {tag : List Char} {c : Char} {rest : List Char}
    (h : (c == '<' && ciPrefOf tag rest && (rest.drop tag.length).contains '>') = false) :
    stripBlock tag (c :: rest) = c :: stripBlock tag rest := by
  rw [stripBlock]
  rw [if_neg (by rw [h]; exact Bool.noConfusion)]

/-- On `noTagB` text the block stripper finds no `<tag ...> ... </tag>`
match: a `<` that opens one would have its tag letters (non-`>`) right
after it and a `>` later, contradicting `noTagB`. -/
theorem stripBlock_id {t0 : Char} {ts : List Char} (h0 : t0 ≠ '>') {l : List Char}
    (h : noTagB l = true) : stripBlock (t0 :: ts) l = l := by
  induction l with
  | nil => exact stripBlock_nil _
  | cons c rest ih =>
    obtain ⟨h1, h2⟩ := (noTagB_cons_iff c rest).mp h
    have hkeep : (c == '<' && ciPrefOf (t0 :: ts) rest
        && (rest.drop (t0 :: ts).length).contains '>') = false := by
      by_cases hc : c = '<'
      · subst hc
        rcases h1 rfl with hg | hg
        · obtain ⟨r2, rfl⟩ := (headIsGt_iff rest).mp hg
          have hci : ciPrefOf (t0 :: ts) ('>' :: r2) = false := by
            unfold ciPrefOf
            cases hbeq : (((('>' :: r2).take (t0 :: ts).length).map Char.toLower) == t0 :: ts)
            · rfl
            · exfalso
              have heq := eq_of_beq hbeq
              rw [List.length_cons, List.take_succ_cons, List.map_cons] at heq
              have hhead : Char.toLower '>' = t0 := (List.cons.injEq _ _ _ _ ▸ heq).1
              have hlow : Char.toLower '>' = '>' := by decide
              exact h0 (hhead.symm.trans hlow)
          rw [hci]
          simp
        · have hcf : (rest.drop (t0 :: ts).length).contains '>' = false := by
            cases hct : (rest.drop (t0 :: ts).length).contains '>'
            · rfl
            · exact absurd (List.drop_subset _ _ ((contains_gt _).mp hct)) hg
          rw [hcf]
          simp
      · simp [hc]
    rw [stripBlock_cons_keep hkeep, ih h2]

/-! Unfolding equations of `collapse`, and its interaction with the
predicates. -/

theorem collapse_nil : collapse [] = [] := by simp [collapse]

theorem collapse_cons_ws {c : Char} {rest : List Char} (h : isWs c = true) :
    collapse (c :: rest) = ' ' :: collapse (rest.dropWhile isWs) := by
  rw [collapse]
  rw [if_pos h]

theorem collapse_cons_nws {c : Char} {rest : List Char} (h : isWs c = false) :
    collapse (c :: rest) = c :: collapse rest := by
  rw [collapse]
  rw [if_neg (by rw [h]; exact Bool.noConfusion)]

theorem mem_collapse {x : Char} {l : List Char} (hx : x ∈ collapse l) :
    x ∈ l ∨ x = ' ' := by
  induction l using collapse.induct with
  | case1 => rw [collapse_nil] at hx; exact absurd hx (List.not_mem_nil x)
  | case2 c rest hws ih =>
    rw [collapse_cons_ws hws] at hx
    rcases List.mem_cons.mp hx with rfl | hx
    · exact Or.inr rfl
    · rcases ih hx with hm | hm
      · exact Or.inl (List.mem_cons_of_mem _ (List.dropWhile_subset _ hm))
      · exact Or.inr hm
  | case3 c rest hws ih =>
    have hws' : isWs c = false := by simpa using hws
    rw [collapse_cons_nws hws'] at hx
    rcases List.mem_cons.mp hx with rfl | hx
    · exact Or.inl (List.mem_cons_self _ _)
    · rcases ih hx with hm | hm
      · exact Or.inl (List.mem_cons_of_mem _ hm)
      · exact Or.inr hm

theorem noTagB_dropWhile {l : List Char} (p : Char → Bool) (h : noTagB l = true) :
    noTagB (l.dropWhile p) = true := by
  induction l with
  | nil => exact h
  | cons c rest ih =>
    by_cases hp : p c = true
    · rw [List.dropWhile_cons_of_pos hp]
      exact ih (noTagB_tail h)
    · rw [List.dropWhile_cons_of_neg hp]
      exact h

theorem noTagB_collapse {l : List Char} (h : noTagB l = true) :
    noTagB (collapse l) = true := by
  induction l using collapse.induct with
  | case1 => rw [collapse_nil]; rfl
  | case2 c rest hws ih =>
    rw [collapse_cons_ws hws, noTagB_cons_iff]
    refine ⟨fun hsp => absurd hsp (by decide), ?_⟩
    exact ih (noTagB_dropWhile isWs (noTagB_tail h))
  | case3 c rest hws ih =>
    have hws' : isWs c = false := by simpa using hws
    rw [collapse_cons_nws hws', noTagB_cons_iff]
    obtain ⟨h1, h2⟩ := (noTagB_cons_iff c rest).mp h
    refine ⟨fun hc => ?_, ih h2⟩
    rcases h1 hc with hg | hg
    · obtain ⟨r2, rfl⟩ := (headIsGt_iff rest).mp hg
      rw [collapse_cons_nws (by decide : isWs '>' = false)]
      exact Or.inl rfl
    · right
      intro hm
      rcases mem_collapse hm with hm' | hm'
      · exact hg hm'
      · exact absurd hm' (by decide)

theorem noTagB_take {l : List Char} (h : noTagB l = true) (n : Nat) :
    noTagB (l.take n) = true := by
  induction l generalizing n with
  | nil => rw [List.take_nil]; rfl
  | cons c rest ih =>
    cases n with
    | zero => rfl
    | succ m =>
      rw [List.take_succ_cons]
      obtain ⟨h1, h2⟩ := (noTagB_cons_iff c rest).mp h
      rw [noTagB_cons_iff]
      refine ⟨fun hc => ?_, ih h2 m⟩
      rcases h1 hc with hg | hg
      · obtain ⟨r2, rfl⟩ := (headIsGt_iff rest).mp hg
        cases m with
        | zero => right; simp
        | succ k => left; rw [List.take_succ_cons]; rfl
      · exact Or.inr fun hm => hg (List.take_subset _ _ hm)

/-! Whitespace-normality lemmas. -/

theorem wsNormB_cons_iff (c : Char) (l : List Char) :
    wsNormB (c :: l) = true ↔
      (wsOkChar c = true ∧ noWsPair c l = true ∧ wsNormB l = true) := by
  simp [wsNormB, Bool.and_eq_true, and_assoc]

theorem wsNormB_tail {c : Char} {l : List Char} (h : wsNormB (c :: l) = true) :
    wsNormB l = true :=
  ((wsNormB_cons_iff c l).mp h).2.2

theorem wsNormB_dropWhile {l : List Char} (p : Char → Bool) (h : wsNormB l = true) :
    wsNormB (l.dropWhile p) = true := by
  induction l with
  | nil => exact h
  | cons c rest ih =>
    by_cases hp : p c = true
    · rw [List.dropWhile_cons_of_pos hp]
      exact ih (wsNormB_tail h)
    · rw [List.dropWhile_cons_of_neg hp]
      exact h

theorem noWsPair_of_take {c : Char} {l : List Char} (m : Nat)
    (h : noWsPair c l = true) : noWsPair c (l.take m) = true := by
  cases l with
  | nil => rw [List.take_nil]; exact h
  | cons d r =>
    cases m with
    | zero => rfl
    | succ k => rw [List.take_succ_cons]; exact h

theorem wsNormB_take {l : List Char} (h : wsNormB l = true) (n : Nat) :
    wsNormB (l.take n) = true := by
  induction l generalizing n with
  | nil => rw [List.take_nil]; rfl
  | cons c rest ih =>
    cases n with
    | zero => rfl
    | succ m =>
      rw [List.take_succ_cons]
      obtain ⟨h1, h2, h3⟩ := (wsNormB_cons_iff c rest).mp h
      exact (wsNormB_cons_iff c (rest.take m)).mpr ⟨h1, noWsPair_of_take m h2, ih h3 m⟩

/-- The head of `collapse u` is the head of `u` when that head is not
whitespace. -/
theorem noWsPair_space_collapse (u : List Char)
    (hu : ∀ d r, u = d :: r → isWs d = false) :
    noWsPair ' ' (collapse u) = true := by
  cases u with
  | nil => rw [collapse_nil]; rfl
  | cons d r =>
    have hd : isWs d = false := hu d r rfl
    rw [collapse_cons_nws hd]
    simp [noWsPair, hd]

theorem head_dropWhile_isWs_false (rest : List Char) :
    ∀ d r, rest.dropWhile isWs = d :: r → isWs d = false := by
  induction rest with
  | nil => intro d r h; exact absurd h (by simp)
  | cons c cs ih =>
    intro d r h
    by_cases hc : isWs c = true
    · rw [List.dropWhile_cons_of_pos hc] at h
      exact ih d r h
    · rw [List.dropWhile_cons_of_neg hc] at h
      cases h
      simpa using hc

theorem wsNormB_collapse (l : List Char) : wsNormB (collapse l) = true := by
  induction l using collapse.induct with
  | case1 => rw [collapse_nil]; rfl
  | case2 c rest hws ih =>
    rw [collapse_cons_ws hws]
    refine (wsNormB_cons_iff _ _).mpr ⟨by decide, ?_, ih⟩
    exact noWsPair_space_collapse _ (head_dropWhile_isWs_false rest)
  | case3 c rest hws ih =>
    have hws' : isWs c = false := by simpa using hws
    rw [collapse_cons_nws hws']
    refine (wsNormB_cons_iff _ _).mpr ⟨by simp [wsOkChar, hws'], ?_, ih⟩
    cases hcol : collapse rest with
    | nil => rfl
    | cons d r => simp [noWsPair, hws']

/-- `collapse` is the identity on whitespace-normal text. -/
theorem collapse_id {l : List Char} (h : wsNormB l = true) : collapse l = l := by
  induction l using collapse.induct with
  | case1 => exact collapse_nil
  | case2 c rest hws ih =>
    obtain ⟨h1, h2, h3⟩ := (wsNormB_cons_iff c rest).mp h
    have hc : c = ' ' := by
      simp [wsOkChar, hws] at h1
      exact h1
    cases rest with
    | nil =>
      rw [collapse_cons_ws hws]
      rw [List.dropWhile_nil, collapse_nil, hc]
    | cons d r =>
      have hd : isWs d = false := by
        simp [noWsPair, hws] at h2
        exact h2
      have hdw : List.dropWhile isWs (d :: r) = d :: r :=
        List.dropWhile_cons_of_neg (by rw [hd]; exact Bool.noConfusion)
      rw [collapse_cons_ws hws, hdw, hc]
      rw [hdw] at ih
      rw [ih h3]
  | case3 c rest hws ih =>
    have hws' : isWs c = false := by simpa using hws
    obtain ⟨h1, h2, h3⟩ := (wsNormB_cons_iff c rest).mp h
    rw [collapse_cons_nws hws', ih h3]

/-! Trim lemmas. -/

/-- Trimming on the right is taking a prefix. -/
theorem trimR_eq_take (l : List Char) : ∃ n, trimR l = l.take n := by
  obtain ⟨t, ht⟩ := List.dropWhile_suffix (l := l.reverse) isWs
  refine ⟨(l.reverse.dropWhile isWs).reverse.length, ?_⟩
  have hl : l = (l.reverse.dropWhile isWs).reverse ++ t.reverse := by
    have h2 := congrArg List.reverse ht
    rw [List.reverse_append, List.reverse_reverse] at h2
    exact h2.symm
  show (l.reverse.dropWhile isWs).reverse = l.take (l.reverse.dropWhile isWs).reverse.length
  calc (l.reverse.dropWhile isWs).reverse
      = List.take (l.reverse.dropWhile isWs).reverse.length
          ((l.reverse.dropWhile isWs).reverse ++ t.reverse) := (List.take_left _ _).symm
    _ = l.take (l.reverse.dropWhile isWs).reverse.length := by rw [← hl]

theorem noTagB_trimR {l : List Char} (h : noTagB l = true) : noTagB (trimR l) = true := by
  obtain ⟨n, hn⟩ := trimR_eq_take l
  rw [hn]
  exact noTagB_take h n

theorem noTagB_trim {l : List Char} (h : noTagB l = true) : noTagB (trim l) = true :=
  noTagB_trimR (noTagB_dropWhile isWs h)

theorem wsNormB_trimR {l : List Char} (h : wsNormB l = true) : wsNormB (trimR l) = true := by
  obtain ⟨n, hn⟩ := trimR_eq_take l
  rw [hn]
  exact wsNormB_take h n

theorem wsNormB_trim {l : List Char} (h : wsNormB l = true) : wsNormB (trim l) = true :=
  wsNormB_trimR (wsNormB_dropWhile isWs h)

theorem dropWhile_dropWhile_same (p : Char → Bool) (l : List Char) :
    (l.dropWhile p).dropWhile p = l.dropWhile p := by
  induction l with
  | nil => rfl
  | cons c rest ih =>
    by_cases hp : p c = true
    · rw [List.dropWhile_cons_of_pos hp]
      exact ih
    · rw [List.dropWhile_cons_of_neg hp, List.dropWhile_cons_of_neg hp]

theorem head_not_p_of_dropWhile_eq {p : Char → Bool} {d : Char} {u' : List Char}
    (h : (d :: u').dropWhile p = d :: u') : p d = false := by
  cases hp : p d
  · rfl
  · exfalso
    rw [List.dropWhile_cons_of_pos hp] at h
    have hlen := congrArg List.length h
    have hle := (List.dropWhile_sublist p (l := u')).length_le
    rw [List.length_cons] at hlen
    omega

theorem trimLeft_trimR (u : List Char) (hu : u.dropWhile isWs = u) :
    trimLeft (trimR u) = trimR u := by
  obtain ⟨n, hn⟩ := trimR_eq_take u
  rw [hn, trimLeft]
  cases htake : u.take n with
  | nil => rw [List.dropWhile_nil]
  | cons d r =>
    cases u with
    | nil =>
      rw [List.take_nil] at htake
      exact absurd htake (by simp)
    | cons e u' =>
      cases n with
      | zero =>
        rw [List.take_zero] at htake
        exact absurd htake (by simp)
      | succ m =>
        rw [List.take_succ_cons] at htake
        injection htake with hde _
        have hd : isWs e = false := head_not_p_of_dropWhile_eq hu
        rw [hde] at hd
        rw [List.dropWhile_cons_of_neg (by rw [hd]; exact Bool.noConfusion)]

theorem trimR_trimR (w : List Char) : trimR (trimR w) = trimR w := by
  show ((((w.reverse.dropWhile isWs).reverse).reverse).dropWhile isWs).reverse
      = (w.reverse.dropWhile isWs).reverse
  rw [List.reverse_reverse, dropWhile_dropWhile_same]

theorem trim_trim (l : List Char) : trim (trim l) = trim l := by
  have hu : (trimLeft l).dropWhile isWs = trimLeft l := dropWhile_dropWhile_same isWs l
  show trimR (trimLeft (trimR (trimLeft l))) = trimR (trimLeft l)
  rw [trimLeft_trimR (trimLeft l) hu]
  exact trimR_trimR (trimLeft l)

/-! Assembly of C7. -/

theorem noTagB_sanitizeL (l : List Char) : noTagB (sanitizeL l) = true :=
  noTagB_trim (noTagB_collapse (noTagB_stripTags _))

theorem wsNormB_sanitizeL (l : List Char) : wsNormB (sanitizeL l) = true :=
  wsNormB_trim (wsNormB_collapse _)

theorem sanitizeL_idem (l : List Char) : sanitizeL (sanitizeL l) = sanitizeL l := by
  have hnt := noTagB_sanitizeL l
  have hws := wsNormB_sanitizeL l
  show trim (collapse (stripTags (stripBlock ('s' :: ['t', 'y', 'l', 'e'])
      (stripBlock ('s' :: ['c', 'r', 'i', 'p', 't']) (sanitizeL l))))) = sanitizeL l
  rw [stripBlock_id (by decide) hnt, stripBlock_id (by decide) hnt,
      stripTags_id hnt, collapse_id hws]
  show trim (trim (collapse (stripTags (stripBlock ('s' :: ['t', 'y', 'l', 'e'])
      (stripBlock ('s' :: ['c', 'r', 'i', 'p', 't']) l))))) = sanitizeL l
  rw [trim_trim]
  rfl

/-- C7: the HTML sanitization of `fetch_web_content` (strip
script/style blocks, strip remaining tags, collapse whitespace runs,
trim) is idempotent: applying it twice yields the same string as
applying it once. -/
theorem c7_sanitize_idempotent (s : String) :
    sanitizeStr (sanitizeStr s) = sanitizeStr s :=
  congrArg (fun l : List Char => (⟨l⟩ : String)) (sanitizeL_idem s.data)

end AIProc
